import Mathlib

/- Verification of the Flip7 game engine (game_functions.py): a shallow
embedding of the card model, deck, player state and the round/turn state
machine, together with theorems about scoring, legality, invariants and
error behaviour. -/

namespace Flip7

/-- Enumeration of all card types in Flip7 (class CardType). -/
inductive CardType where
  | NUMBER
  | FLIP_THREE
  | FREEZE
  | SECOND_CHANCE
  | ADDITIVE
  | MULTIPLIER
  deriving DecidableEq, Repr

/-- Cards: a NumberCard carries an integer value, an ActionCard carries its
card type, a ModifierCard carries its card type and an amount (classes
Card, NumberCard, ActionCard, ModifierCard). -/
inductive Card where
  | number (value : Int)
  | action (t : CardType)
  | modifier (t : CardType) (amount : Int)
  deriving DecidableEq, Repr

/-- Discriminant of a card (the card_type attribute set by the constructors). -/
def Card.cardType : Card → CardType
  | .number _ => CardType.NUMBER
  | .action t => t
  | .modifier t _ => t

/-- Amount payload of a card (the amount attribute; only modifier cards carry
one, and only modifier cards are ever interrogated for it). -/
def Card.amount : Card → Int
  | .modifier _ a => a
  | _ => 0

/-- NumberCard construction: the constructor performs no validation of the
value, so it succeeds for every integer (NumberCard.init). -/
def mkNumberCard (value : Int) : Option Card := some (Card.number value)

/-- ActionCard construction: rejects any discriminant other than the three
action types, where Python raises ValueError (ActionCard.init). -/
def mkActionCard (t : CardType) : Option Card :=
  if t = CardType.FLIP_THREE ∨ t = CardType.FREEZE ∨ t = CardType.SECOND_CHANCE then
    some (Card.action t)
  else none

/-- ModifierCard construction: rejects any discriminant other than ADDITIVE
or MULTIPLIER, where Python raises ValueError (ModifierCard.init). -/
def mkModifierCard (t : CardType) (amount : Int) : Option Card :=
  if t = CardType.ADDITIVE ∨ t = CardType.MULTIPLIER then
    some (Card.modifier t amount)
  else none

/-- The draw pile (field cards) and discard pile of class Deck. -/
structure Deck where
  cards : List Card
  discard : List Card
  deriving DecidableEq, Repr

/-- The fixed 98-card composition built by Deck.init, in construction order:
one 0, v copies of each value v in 1..12, four of each of the three action
cards, one additive modifier each of 2, 4, 6, 8, 10, and two x2 multipliers. -/
def standardCards : List Card :=
  ((List.range 13).flatMap fun v =>
    List.replicate (if 0 < v then v else 1) (Card.number (v : Int)))
  ++ List.replicate 4 (Card.action CardType.FLIP_THREE)
  ++ List.replicate 4 (Card.action CardType.FREEZE)
  ++ List.replicate 4 (Card.action CardType.SECOND_CHANCE)
  ++ ([2, 4, 6, 8, 10].map fun a => Card.modifier CardType.ADDITIVE (a : Int))
  ++ List.replicate 2 (Card.modifier CardType.MULTIPLIER 2)

/-- Deck.draw, with random.shuffle modelled as an explicit permutation oracle
shuf applied to the discard pile when the draw pile runs out. Returns none
exactly where the Python raises IndexError (the DeckExhausted condition).
A draw pops the last element of the draw pile and appends it to the discard
pile; when the draw pile is empty and the discard pile is not, the discard
pile is moved (reshuffled) into the draw pile and cleared first. -/
def Deck.draw (d : Deck) (shuf : List Card → List Card) : Option (Card × Deck) :=
  if d.cards.isEmpty then
    if d.discard.isEmpty then none
    else
      let cards₁ := shuf d.discard
      match cards₁.getLast? with
      | none => none
      | some c => some (c, { cards := cards₁.dropLast, discard := [c] })
  else
    match d.cards.getLast? with
    | none => none
    | some c => some (c, { cards := d.cards.dropLast, discard := d.discard ++ [c] })

/-- A shuffle oracle is admissible when it returns a permutation of its
input, which is all random.shuffle can do. -/
def PermOK (shuf : List Card → List Card) : Prop :=
  ∀ l : List Card, (shuf l).Perm l

/-- Per-round player state (class PlayerState); flipped stores the values of
the flipped number cards, matching how the engine only ever reads their
value attribute. -/
structure PlayerState where
  flipped : List Int
  modifiers : List Card
  has_second_chance : Bool
  pending_flips : Nat
  active : Bool
  need_flip_decision : Bool
  need_freeze_decision : Bool
  busted : Bool
  deriving DecidableEq, Repr

/-- Round-start defaults (PlayerState.init and reset_round). -/
def PlayerState.start : PlayerState :=
  { flipped := []
    modifiers := []
    has_second_chance := false
    pending_flips := 0
    active := true
    need_flip_decision := false
    need_freeze_decision := false
    busted := false }

/-- The aggregate game state (class GameState): deck, the two players,
current player index, round flag, cumulative scores. -/
structure GameState where
  deck : Deck
  players : List PlayerState
  current : Nat
  round_active : Bool
  cumulative : List Int
  deriving DecidableEq, Repr

/-- Initial game state (GameState.init), with the construction-time shuffle
given by the oracle. -/
def GameState.initial (shuf : List Card → List Card) : GameState :=
  { deck := { cards := shuf standardCards, discard := [] }
    players := [PlayerState.start, PlayerState.start]
    current := 0
    round_active := true
    cumulative := [0, 0] }

/-- GameState.get_actions. -/
def get_actions (s : GameState) : List String :=
  let ps := s.players.getD s.current PlayerState.start
  if ps.active = false ∨ s.round_active = false then []
  else if ps.need_flip_decision then ["KeepFlipThree", "PassFlipThree"]
  else if ps.need_freeze_decision then ["KeepFreeze", "PassFreeze"]
  else if 0 < ps.pending_flips then ["Hit"]
  else ["Hit", "Stay"]

/-- GameState.compute_round_score: zero when busted, else the flipped sum,
multiplied through by every MULTIPLIER modifier, then increased by every
ADDITIVE modifier, then a flat 15 when at least 7 distinct values were
flipped. -/
def compute_round_score (player : PlayerState) : Int :=
  if player.busted then 0
  else
    let total := player.flipped.sum
    let total := player.modifiers.foldl
      (fun t m => if m.cardType = CardType.MULTIPLIER then t * m.amount else t) total
    let total := player.modifiers.foldl
      (fun t m => if m.cardType = CardType.ADDITIVE then t + m.amount else t) total
    if 7 ≤ player.flipped.dedup.length then total + 15 else total

/-- Resolution of a drawn card in the Hit branch of GameState.step (lines
196 to 220): s already carries the post-draw deck, ps the current player
after the pending_flips decrement, other the pre-draw opposing player. -/
def resolveHit (s : GameState) (ps other : PlayerState) (card : Card) : GameState :=
  let upd : List Int × PlayerState :=
    match card with
    | Card.number v =>
        if ps.flipped.contains v then
          if ps.has_second_chance = false then
            (s.cumulative, { ps with active := false, busted := true })
          else
            (s.cumulative, { ps with has_second_chance := false })
        else
          (s.cumulative, { ps with flipped := ps.flipped ++ [v] })
    | Card.action t =>
        if t = CardType.FLIP_THREE then
          if other.active then (s.cumulative, { ps with need_flip_decision := true })
          else (s.cumulative, { ps with pending_flips := ps.pending_flips + 3 })
        else if t = CardType.FREEZE then
          if other.active then (s.cumulative, { ps with need_freeze_decision := true })
          else
            (s.cumulative.set s.current
                (s.cumulative.getD s.current 0 + compute_round_score ps), { ps with active := false })
        else (s.cumulative, { ps with has_second_chance := true })
    | Card.modifier _ _ =>
        (s.cumulative, { ps with modifiers := ps.modifiers ++ [card] })
  let players₁ := s.players.set s.current upd.2
  let current₁ :=
    if upd.2.need_flip_decision = false ∧ upd.2.need_freeze_decision = false ∧
        upd.2.pending_flips = 0 then
      s.current ^^^ 1
    else s.current
  let round₁ := if players₁.any (fun p => p.active) then s.round_active else false
  { s with
    cumulative := upd.1
    players := players₁
    current := current₁
    round_active := round₁ }

/-- GameState.step: the single state-transition entry point. Returns none
exactly where the Python call would propagate IndexError from Deck.draw,
and otherwise the successor state together with the drawn card, if any. -/
def step (shuf : List Card → List Card) (s : GameState) (a : String) :
    Option (GameState × Option Card) :=
  let ps := s.players.getD s.current PlayerState.start
  let other := s.players.getD (1 - s.current) PlayerState.start
  if ps.need_flip_decision = true ∧ (a = "KeepFlipThree" ∨ a = "PassFlipThree") then
    if a = "KeepFlipThree" then
      let ps' : PlayerState :=
        { ps with
          pending_flips := ps.pending_flips + 3
          need_flip_decision := false }
      some ({ s with players := s.players.set s.current ps' }, none)
    else
      let other' : PlayerState := { other with pending_flips := other.pending_flips + 3 }
      let ps' : PlayerState := { ps with need_flip_decision := false }
      some ({ s with
        players := (s.players.set (1 - s.current) other').set s.current ps'
        current := 1 - s.current }, none)
  else if ps.need_freeze_decision = true ∧ (a = "KeepFreeze" ∨ a = "PassFreeze") then
    let s₁ :=
      if a = "KeepFreeze" then
        let ps' : PlayerState :=
          { ps with
            active := false
            need_freeze_decision := false }
        { s with
          cumulative := s.cumulative.set s.current
            (s.cumulative.getD s.current 0 + compute_round_score ps)
          players := s.players.set s.current ps' }
      else
        let other' : PlayerState := { other with active := false }
        let ps' : PlayerState := { ps with need_freeze_decision := false }
        { s with
          cumulative := s.cumulative.set (1 - s.current)
            (s.cumulative.getD (1 - s.current) 0 + compute_round_score other)
          players := (s.players.set (1 - s.current) other').set s.current ps' }
    if s₁.players.any (fun p => p.active) then
      some ({ s₁ with current := s₁.current ^^^ 1 }, none)
    else
      some ({ s₁ with round_active := false }, none)
  else if ps.active = false ∨ s.round_active = false then
    some (s, none)
  else if a = "Stay" then
    let s₁ :=
      { s with
        cumulative := s.cumulative.set s.current
          (s.cumulative.getD s.current 0 + compute_round_score ps)
        players := s.players.set s.current { ps with active := false } }
    if s₁.players.any (fun p => p.active) then
      some ({ s₁ with current := s₁.current ^^^ 1 }, none)
    else
      some ({ s₁ with round_active := false }, none)
  else if a = "Hit" then
    let ps₁ :=
      if 0 < ps.pending_flips then { ps with pending_flips := ps.pending_flips - 1 }
      else ps
    match s.deck.draw shuf with
    | none => none
    | some (card, deck₁) => some (resolveHit { s with deck := deck₁ } ps₁ other card, some card)
  else
    some (s, none)

/-- Game states reachable from construction through any sequence of step
calls with admissible shuffles. -/
inductive Reachable : GameState → Prop where
  | base (shuf : List Card → List Card) (h : PermOK shuf) :
      Reachable (GameState.initial shuf)
  | next (shuf : List Card → List Card) (s : GameState) (a : String)
      (s' : GameState) (c : Option Card) (hp : PermOK shuf) (hs : Reachable s)
      (h : step shuf s a = some (s', c)) : Reachable s'

/-- Decks reachable from construction through any sequence of successful
draw calls with admissible shuffles. -/
inductive DeckReachable : Deck → Prop where
  | base (shuf : List Card → List Card) (h : PermOK shuf) :
      DeckReachable { cards := shuf standardCards, discard := [] }
  | next (shuf : List Card → List Card) (d : Deck) (c : Card) (d' : Deck)
      (hp : PermOK shuf) (hd : DeckReachable d)
      (h : d.draw shuf = some (c, d')) : DeckReachable d'

/-- The identity permutation oracle is admissible. -/
theorem permOK_id : PermOK id := fun _ => List.Perm.refl _

/-- Score of a player as the spec words it: zero when busted, otherwise the
flipped sum times the product of all multiplier amounts, plus the sum of all
additive amounts, plus a flat 15 when at least 7 distinct values were
flipped. -/
def spec_round_score (player : PlayerState) : Int :=
  if player.busted then 0
  else
    player.flipped.sum
        * ((player.modifiers.filter fun m =>
              decide (m.cardType = CardType.MULTIPLIER)).map Card.amount).prod
      + ((player.modifiers.filter fun m =>
              decide (m.cardType = CardType.ADDITIVE)).map Card.amount).sum
      + (if 7 ≤ player.flipped.dedup.length then 15 else 0)

/-- Folding the multiplier pass of compute_round_score multiplies the seed by
the product of the multiplier amounts. -/
theorem foldl_mult_eq (l : List Card) (x : Int) :
    l.foldl (fun t m => if m.cardType = CardType.MULTIPLIER then t * m.amount else t) x
      = x * ((l.filter fun m =>
          decide (m.cardType = CardType.MULTIPLIER)).map Card.amount).prod := by
  induction l generalizing x with
  | nil => simp
  | cons m l ih =>
    by_cases hm : m.cardType = CardType.MULTIPLIER
    · simp [hm, ih, mul_assoc]
    · simp [hm, ih]

/-- Folding the additive pass of compute_round_score adds the sum of the
additive amounts to the seed. -/
theorem foldl_add_eq (l : List Card) (x : Int) :
    l.foldl (fun t m => if m.cardType = CardType.ADDITIVE then t + m.amount else t) x
      = x + ((l.filter fun m =>
          decide (m.cardType = CardType.ADDITIVE)).map Card.amount).sum := by
  induction l generalizing x with
  | nil => simp
  | cons m l ih =>
    by_cases hm : m.cardType = CardType.ADDITIVE
    · simp [hm, ih, add_assoc]
    · simp [hm, ih]

/-- C1: compute_round_score returns 0 for a busted player, and otherwise the
flipped sum times every multiplier amount, plus every additive amount, plus
a flat 15 when at least 7 distinct values were flipped; on flipped 5, 6 with
modifiers x2 and +3 it yields 25. -/
theorem compute_round_score_spec :
    (∀ p : PlayerState, compute_round_score p = spec_round_score p) ∧
    compute_round_score
      { PlayerState.start with
        flipped := [5, 6]
        modifiers := [Card.modifier CardType.MULTIPLIER 2,
          Card.modifier CardType.ADDITIVE 3] } = 25 := by
  constructor
  · intro p
    unfold compute_round_score spec_round_score
    by_cases hb : p.busted
    · simp [hb]
    · simp only [hb, if_false, Bool.false_eq_true]
      rw [foldl_mult_eq, foldl_add_eq]
      by_cases h7 : 7 ≤ p.flipped.dedup.length <;> simp [h7]
  · decide

/-- Getting the last element of a non-empty list succeeds. -/
theorem exists_getLast? {α : Type} (l : List α) (h : l ≠ []) :
    ∃ c, l.getLast? = some c := by
  cases hl : l.getLast? with
  | some c => exact ⟨c, rfl⟩
  | none => exact absurd (List.getLast?_eq_none_iff.mp hl) h

/-- An admissible shuffle of a non-empty list is non-empty. -/
theorem shuf_ne_nil (shuf : List Card → List Card) (hp : PermOK shuf)
    (l : List Card) (h : l ≠ []) : shuf l ≠ [] := by
  intro hc
  have := (hp l).length_eq
  rw [hc] at this
  exact h (List.length_eq_zero.mp this.symm)

/-- The standard composition has 98 cards. -/
theorem standardCards_length : standardCards.length = 98 := by decide

/-- C4: Deck.draw fails exactly when both piles are empty; with an empty
draw pile and a non-empty discard pile it moves the discard pile, as
reshuffled, into the draw pile, clears the discard pile and draws from the
reshuffled pile; otherwise it removes the last card of the draw pile,
appends it to the discard pile and returns it. -/
theorem draw_spec (shuf : List Card → List Card) (d : Deck) (hp : PermOK shuf) :
    (d.draw shuf = none ↔ d.cards = [] ∧ d.discard = []) ∧
    (d.cards = [] → d.discard ≠ [] → ∃ c,
      (shuf d.discard).getLast? = some c ∧
      d.draw shuf = some (c, { cards := (shuf d.discard).dropLast, discard := [c] })) ∧
    (d.cards ≠ [] → ∃ c, d.cards.getLast? = some c ∧
      d.draw shuf = some (c, { cards := d.cards.dropLast, discard := d.discard ++ [c] })) := by
  by_cases hc : d.cards = []
  · by_cases hdis : d.discard = []
    · refine ⟨⟨fun _ => ⟨hc, hdis⟩, fun _ => ?_⟩, fun _ hdis2 => absurd hdis hdis2,
        fun hne => absurd hc hne⟩
      simp [Deck.draw, hc, hdis]
    · obtain ⟨c, hlast⟩ := exists_getLast? (shuf d.discard) (shuf_ne_nil shuf hp _ hdis)
      have hdraw : d.draw shuf =
          some (c, { cards := (shuf d.discard).dropLast, discard := [c] }) := by
        simp [Deck.draw, hc, hdis, hlast]
      refine ⟨⟨fun h => ?_, fun h => absurd h.2 hdis⟩,
        fun _ _ => ⟨c, hlast, hdraw⟩, fun hne => absurd hc hne⟩
      rw [hdraw] at h
      exact Option.noConfusion h
  · obtain ⟨c, hlast⟩ := exists_getLast? d.cards hc
    have hdraw : d.draw shuf =
        some (c, { cards := d.cards.dropLast, discard := d.discard ++ [c] }) := by
      simp [Deck.draw, hc, hlast]
    refine ⟨⟨fun h => ?_, fun h => absurd h.1 hc⟩,
      fun h => absurd h hc, fun _ => ⟨c, hlast, hdraw⟩⟩
    rw [hdraw] at h
    exact Option.noConfusion h

/-- A closed instance of the draw specification: drawing from a fully empty
deck reports exhaustion. -/
theorem draw_spec_witness :
    Deck.draw { cards := [], discard := [] } id = none :=
  (draw_spec id { cards := [], discard := [] } permOK_id).1.mpr ⟨rfl, rfl⟩

/-- A successful draw preserves the combined size of the two piles. -/
theorem draw_total_length (shuf : List Card → List Card) (d : Deck) (c : Card)
    (d' : Deck) (hp : PermOK shuf) (h : d.draw shuf = some (c, d')) :
    d'.cards.length + d'.discard.length = d.cards.length + d.discard.length := by
  by_cases hc : d.cards = []
  · by_cases hdis : d.discard = []
    · rw [((draw_spec shuf d hp).1).mpr ⟨hc, hdis⟩] at h
      exact Option.noConfusion h
    · obtain ⟨c₂, hlast, hdraw⟩ := (draw_spec shuf d hp).2.1 hc hdis
      rw [hdraw] at h
      obtain ⟨rfl, rfl⟩ : c₂ = c ∧ d' = { cards := (shuf d.discard).dropLast, discard := [c₂] } := by
        cases h; exact ⟨rfl, rfl⟩
      have hlen : (shuf d.discard).length = d.discard.length := (hp d.discard).length_eq
      have hpos : 1 ≤ (shuf d.discard).length := by
        have := shuf_ne_nil shuf hp d.discard hdis
        cases hs : shuf d.discard with
        | nil => exact absurd hs this
        | cons x xs => simp [hs]
      simp only [List.length_dropLast, hc, List.length_cons, List.length_nil]
      omega
  · obtain ⟨c₂, hlast, hdraw⟩ := (draw_spec shuf d hp).2.2 hc
    rw [hdraw] at h
    obtain ⟨rfl, rfl⟩ : c₂ = c ∧ d' = { cards := d.cards.dropLast, discard := d.discard ++ [c₂] } := by
      cases h; exact ⟨rfl, rfl⟩
    have hpos : 1 ≤ d.cards.length := by
      cases hs : d.cards with
      | nil => exact absurd hs hc
      | cons x xs => simp [hs]
    simp only [List.length_dropLast, List.length_append, List.length_cons, List.length_nil]
    omega

/-- C3: every reachable deck holds 98 cards across its two piles; a
successful draw from a non-empty draw pile moves exactly one card from the
draw pile to the discard pile, and a draw that reshuffles still preserves
the combined total. -/
theorem deck_conservation (d : Deck) (hd : DeckReachable d) :
    d.cards.length + d.discard.length = 98 ∧
    (∀ (shuf : List Card → List Card) (c : Card) (d' : Deck), PermOK shuf →
      d.cards ≠ [] → d.draw shuf = some (c, d') →
      d'.cards.length + 1 = d.cards.length ∧
      d'.discard.length = d.discard.length + 1) ∧
    (∀ (shuf : List Card → List Card) (c : Card) (d' : Deck), PermOK shuf →
      d.cards = [] → d.draw shuf = some (c, d') →
      d'.cards.length + d'.discard.length = d.cards.length + d.discard.length) := by
  have htotal : d.cards.length + d.discard.length = 98 := by
    induction hd with
    | base shuf h =>
      have := (h standardCards).length_eq
      simpa [standardCards_length] using this
    | next shuf d c d' hp hd h ih =>
      rw [draw_total_length shuf d c d' hp h]
      exact ih
  refine ⟨htotal, fun shuf c d' hp hc h => ?_, fun shuf c d' hp hc h => ?_⟩
  · obtain ⟨c₂, hlast, hdraw⟩ := (draw_spec shuf d hp).2.2 hc
    rw [hdraw] at h
    obtain ⟨rfl, rfl⟩ : c₂ = c ∧ d' = { cards := d.cards.dropLast, discard := d.discard ++ [c₂] } := by
      cases h; exact ⟨rfl, rfl⟩
    have hpos : 1 ≤ d.cards.length := by
      cases hs : d.cards with
      | nil => exact absurd hs hc
      | cons x xs => simp [hs]
    constructor
    · simp only [List.length_dropLast]; omega
    · simp
  · exact draw_total_length shuf d c d' hp h

/-- A closed instance of deck conservation: the freshly constructed deck,
with the identity shuffle, has 98 cards in total. -/
theorem deck_conservation_witness :
    (({ cards := id standardCards, discard := [] } : Deck)).cards.length +
      (({ cards := id standardCards, discard := [] } : Deck)).discard.length = 98 :=
  (deck_conservation _ (DeckReachable.base id permOK_id)).1

/-- Shorthand for the player whose turn it is. -/
abbrev curP (s : GameState) : PlayerState := s.players.getD s.current PlayerState.start

/-- Shorthand for the opposing player. -/
abbrev othP (s : GameState) : PlayerState := s.players.getD (1 - s.current) PlayerState.start

/-- Branch equation: KeepFlipThree with the flip decision pending. -/
theorem step_flip_keep (shuf : List Card → List Card) (s : GameState)
    (h : (curP s).need_flip_decision = true) :
    step shuf s "KeepFlipThree" =
      some ({ s with
        players := s.players.set s.current
            { curP s with
              pending_flips := (curP s).pending_flips + 3
              need_flip_decision := false } }, none) := by
  unfold step
  rw [if_pos ⟨h, Or.inl rfl⟩, if_pos rfl]

/-- Branch equation: PassFlipThree with the flip decision pending. -/
theorem step_flip_pass (shuf : List Card → List Card) (s : GameState)
    (h : (curP s).need_flip_decision = true) :
    step shuf s "PassFlipThree" =
      some ({ s with
        players := (s.players.set (1 - s.current)
            { othP s with pending_flips := (othP s).pending_flips + 3 }).set s.current
          { curP s with need_flip_decision := false }
        current := 1 - s.current }, none) := by
  unfold step
  rw [if_pos ⟨h, Or.inr rfl⟩, if_neg (by decide)]

/-- Branch equation: KeepFreeze with the freeze decision pending. -/
theorem step_freeze_keep (shuf : List Card → List Card) (s : GameState)
    (h : (curP s).need_freeze_decision = true) :
    step shuf s "KeepFreeze" =
      (if (s.players.set s.current
            { curP s with
              active := false
              need_freeze_decision := false }).any (fun p => p.active) then
        some ({ s with
          cumulative := s.cumulative.set s.current
            (s.cumulative.getD s.current 0 + compute_round_score (curP s))
          players := s.players.set s.current
              { curP s with
                active := false
                need_freeze_decision := false }
          current := s.current ^^^ 1 }, none)
      else
        some ({ s with
          cumulative := s.cumulative.set s.current
            (s.cumulative.getD s.current 0 + compute_round_score (curP s))
          players := s.players.set s.current
              { curP s with
                active := false
                need_freeze_decision := false }
          round_active := false }, none)) := by
  unfold step
  rw [if_neg (fun hx => by rcases hx.2 with h2 | h2 <;> exact absurd h2 (by decide)),
    if_pos ⟨h, Or.inl rfl⟩]
  rfl

/-- Branch equation: PassFreeze with the freeze decision pending. -/
theorem step_freeze_pass (shuf : List Card → List Card) (s : GameState)
    (h : (curP s).need_freeze_decision = true) :
    step shuf s "PassFreeze" =
      (if ((s.players.set (1 - s.current) { othP s with active := false }).set s.current
            { curP s with need_freeze_decision := false }).any (fun p => p.active) then
        some ({ s with
          cumulative := s.cumulative.set (1 - s.current)
            (s.cumulative.getD (1 - s.current) 0 + compute_round_score (othP s))
          players := (s.players.set (1 - s.current)
              { othP s with active := false }).set s.current
            { curP s with need_freeze_decision := false }
          current := s.current ^^^ 1 }, none)
      else
        some ({ s with
          cumulative := s.cumulative.set (1 - s.current)
            (s.cumulative.getD (1 - s.current) 0 + compute_round_score (othP s))
          players := (s.players.set (1 - s.current)
              { othP s with active := false }).set s.current
            { curP s with need_freeze_decision := false }
          round_active := false }, none)) := by
  unfold step
  rw [if_neg (fun hx => by rcases hx.2 with h2 | h2 <;> exact absurd h2 (by decide)),
    if_pos ⟨h, Or.inr rfl⟩]
  rfl

/-- Branch equation: Stay by an active player in an active round. -/
theorem step_stay (shuf : List Card → List Card) (s : GameState)
    (ha : (s.players.getD s.current PlayerState.start).active = true)
    (hr : s.round_active = true) :
    step shuf s "Stay" =
      (if (s.players.set s.current { curP s with active := false }).any
          (fun p => p.active) then
        some ({ s with
          cumulative := s.cumulative.set s.current
            (s.cumulative.getD s.current 0 + compute_round_score (curP s))
          players := s.players.set s.current { curP s with active := false }
          current := s.current ^^^ 1 }, none)
      else
        some ({ s with
          cumulative := s.cumulative.set s.current
            (s.cumulative.getD s.current 0 + compute_round_score (curP s))
          players := s.players.set s.current { curP s with active := false }
          round_active := false }, none)) := by
  unfold step
  rw [if_neg (fun hx => by rcases hx.2 with h2 | h2 <;> exact absurd h2 (by decide)),
    if_neg (fun hx => by rcases hx.2 with h2 | h2 <;> exact absurd h2 (by decide)),
    if_neg (fun hx => hx.elim (fun h2 => by rw [ha] at h2; cases h2)
      (fun h2 => by rw [hr] at h2; cases h2)),
    if_pos rfl]

/-- Branch equation: Hit by an active player in an active round, with the
deck producing a card. -/
theorem step_hit (shuf : List Card → List Card) (s : GameState)
    (ha : (s.players.getD s.current PlayerState.start).active = true)
    (hr : s.round_active = true)
    (card : Card) (deck₁ : Deck) (hd : s.deck.draw shuf = some (card, deck₁)) :
    step shuf s "Hit" =
      some (resolveHit { s with deck := deck₁ }
        (if 0 < (curP s).pending_flips then
          { curP s with pending_flips := (curP s).pending_flips - 1 }
        else curP s) (othP s) card, some card) := by
  unfold step
  rw [if_neg (fun hx => by rcases hx.2 with h2 | h2 <;> exact absurd h2 (by decide)),
    if_neg (fun hx => by rcases hx.2 with h2 | h2 <;> exact absurd h2 (by decide)),
    if_neg (fun hx => hx.elim (fun h2 => by rw [ha] at h2; cases h2)
      (fun h2 => by rw [hr] at h2; cases h2)),
    if_neg (by decide), if_pos rfl]
  rw [hd]

/-- Branch equation: Hit when the deck is empty fails. -/
theorem step_hit_none (shuf : List Card → List Card) (s : GameState)
    (ha : (s.players.getD s.current PlayerState.start).active = true)
    (hr : s.round_active = true)
    (hd : s.deck.draw shuf = none) :
    step shuf s "Hit" = none := by
  unfold step
  rw [if_neg (fun hx => by rcases hx.2 with h2 | h2 <;> exact absurd h2 (by decide)),
    if_neg (fun hx => by rcases hx.2 with h2 | h2 <;> exact absurd h2 (by decide)),
    if_neg (fun hx => hx.elim (fun h2 => by rw [ha] at h2; cases h2)
      (fun h2 => by rw [hr] at h2; cases h2)),
    if_neg (by decide), if_pos rfl]
  rw [hd]

/-- Branch equation: any action by an inactive player, or in a finished
round, is a no-op unless one of the two decision branches fires. -/
theorem step_noop (shuf : List Card → List Card) (s : GameState) (a : String)
    (h1 : ¬((curP s).need_flip_decision = true ∧
      (a = "KeepFlipThree" ∨ a = "PassFlipThree")))
    (h2 : ¬((curP s).need_freeze_decision = true ∧
      (a = "KeepFreeze" ∨ a = "PassFreeze")))
    (h : (curP s).active = false ∨ s.round_active = false) :
    step shuf s a = some (s, none) := by
  unfold step
  rw [if_neg h1, if_neg h2, if_pos h]

/-- The player record produced by the Hit branch for each drawn card; a
derived view of resolveHit proved equal to it in resolveHit_eq. -/
def hitPlayer (ps other : PlayerState) (card : Card) : PlayerState :=
  match card with
  | Card.number v =>
      if ps.flipped.contains v then
        if ps.has_second_chance = false then { ps with active := false, busted := true }
        else { ps with has_second_chance := false }
      else { ps with flipped := ps.flipped ++ [v] }
  | Card.action t =>
      if t = CardType.FLIP_THREE then
        if other.active then { ps with need_flip_decision := true }
        else { ps with pending_flips := ps.pending_flips + 3 }
      else if t = CardType.FREEZE then
        if other.active then { ps with need_freeze_decision := true }
        else { ps with active := false }
      else { ps with has_second_chance := true }
  | Card.modifier _ _ => { ps with modifiers := ps.modifiers ++ [card] }

/-- The cumulative-score list produced by the Hit branch for each drawn
card; only the auto-resolved Freeze banks points. A derived view of
resolveHit proved equal to it in resolveHit_eq. -/
def hitCumulative (s : GameState) (ps other : PlayerState) (card : Card) : List Int :=
  match card with
  | Card.action t =>
      if t = CardType.FLIP_THREE then s.cumulative
      else if t = CardType.FREEZE then
        if other.active then s.cumulative
        else s.cumulative.set s.current
          (s.cumulative.getD s.current 0 + compute_round_score ps)
      else s.cumulative
  | _ => s.cumulative

/-- Decomposition of resolveHit into its player, cumulative, turn and
round-flag components. -/
theorem resolveHit_eq (s : GameState) (ps other : PlayerState) (card : Card) :
    resolveHit s ps other card =
      { s with
        cumulative := hitCumulative s ps other card
        players := s.players.set s.current (hitPlayer ps other card)
        current :=
          if (hitPlayer ps other card).need_flip_decision = false ∧
              (hitPlayer ps other card).need_freeze_decision = false ∧
              (hitPlayer ps other card).pending_flips = 0 then
            s.current ^^^ 1
          else s.current
        round_active :=
          if (s.players.set s.current (hitPlayer ps other card)).any
              (fun p => p.active) then s.round_active
          else false } := by
  cases card with
  | number v =>
    simp only [resolveHit, hitPlayer, hitCumulative]
    split_ifs <;> rfl
  | action t =>
    simp only [resolveHit, hitPlayer, hitCumulative]
    split_ifs <;> rfl
  | modifier t a =>
    simp only [resolveHit, hitPlayer, hitCumulative]

/-- Reading back the element just written by List.set. -/
theorem getD_set_self {α : Type} (l : List α) (i : Nat) (x d : α)
    (h : i < l.length) : (l.set i x).getD i d = x := by
  simp [List.getD, List.getElem?_set_self, h]

/-- Reading any other position after List.set. -/
theorem getD_set_ne {α : Type} (l : List α) (i j : Nat) (x d : α)
    (h : i ≠ j) : (l.set i x).getD j d = l.getD j d := by
  simp [List.getD, List.getElem?_set_ne, h]

/-- C5: with the flip decision pending for the current player of a
two-player state, KeepFlipThree adds 3 to the current player's pending
flips and leaves the turn index unchanged, while PassFlipThree adds 3 to
the other player's pending flips and switches the turn to the other
player; both clear the decision flag and return no card. -/
theorem flip_decision_spec (shuf : List Card → List Card) (s : GameState)
    (hlen : s.players.length = 2)
    (h : (s.players.getD s.current PlayerState.start).need_flip_decision = true) :
    (∃ s' : GameState, step shuf s "KeepFlipThree" = some (s', none) ∧
      s'.current = s.current ∧
      (s'.players.getD s.current PlayerState.start).pending_flips =
        (s.players.getD s.current PlayerState.start).pending_flips + 3 ∧
      (s'.players.getD s.current PlayerState.start).need_flip_decision = false) ∧
    (∃ s' : GameState, step shuf s "PassFlipThree" = some (s', none) ∧
      s'.current = 1 - s.current ∧
      (s'.players.getD (1 - s.current) PlayerState.start).pending_flips =
        (s.players.getD (1 - s.current) PlayerState.start).pending_flips + 3 ∧
      (s'.players.getD s.current PlayerState.start).need_flip_decision = false) := by
  have hcur : s.current < s.players.length := by
    by_contra hge
    push_neg at hge
    rw [List.getD_eq_default _ _ hge] at h
    simp [PlayerState.start] at h
  have hne : s.current ≠ 1 - s.current := by
    rw [hlen] at hcur; omega
  have hone : 1 - s.current < s.players.length := by
    rw [hlen] at hcur ⊢; omega
  constructor
  · refine ⟨_, step_flip_keep shuf s h, rfl, ?_, ?_⟩
    · rw [getD_set_self _ _ _ _ hcur]
    · rw [getD_set_self _ _ _ _ hcur]
  · refine ⟨_, step_flip_pass shuf s h, rfl, ?_, ?_⟩
    · rw [getD_set_ne _ _ _ _ _ hne, getD_set_self _ _ _ _ hone]
    · rw [getD_set_self _ _ _ _ (by rw [List.length_set]; exact hcur)]

/-- A closed instance of the flip-decision property at a concrete state
with the decision flag set. -/
theorem flip_decision_spec_witness :
    ∃ s' : GameState, step id
      ({ deck := { cards := [], discard := [] }
         players := [{ PlayerState.start with need_flip_decision := true },
           PlayerState.start]
         current := 0
         round_active := true
         cumulative := [0, 0] } : GameState) "KeepFlipThree" = some (s', none) ∧
      s'.current = 0 ∧
      (s'.players.getD 0 PlayerState.start).pending_flips =
        (([{ PlayerState.start with need_flip_decision := true },
          PlayerState.start] : List PlayerState).getD 0 PlayerState.start).pending_flips
          + 3 ∧
      (s'.players.getD 0 PlayerState.start).need_flip_decision = false :=
  (flip_decision_spec id
    ({ deck := { cards := [], discard := [] }
       players := [{ PlayerState.start with need_flip_decision := true },
         PlayerState.start]
       current := 0
       round_active := true
       cumulative := [0, 0] } : GameState) rfl rfl).1

/-- C6: when a Hit draws a Number whose value is already among the current
player's flipped values, the duplicate is never appended; without a second
chance the player busts and is deactivated, while a held second chance is
consumed and the player stays active and un-busted. -/
theorem duplicate_draw_spec (shuf : List Card → List Card) (s : GameState)
    (v : Int) (deck₁ : Deck)
    (ha : (s.players.getD s.current PlayerState.start).active = true)
    (hr : s.round_active = true)
    (hd : s.deck.draw shuf = some (Card.number v, deck₁))
    (hv : v ∈ (s.players.getD s.current PlayerState.start).flipped) :
    ∃ s' : GameState, step shuf s "Hit" = some (s', some (Card.number v)) ∧
      (s'.players.getD s.current PlayerState.start).flipped =
        (s.players.getD s.current PlayerState.start).flipped ∧
      ((s.players.getD s.current PlayerState.start).has_second_chance = false →
        (s'.players.getD s.current PlayerState.start).busted = true ∧
        (s'.players.getD s.current PlayerState.start).active = false ∧
        (s'.players.getD s.current PlayerState.start).has_second_chance = false) ∧
      ((s.players.getD s.current PlayerState.start).has_second_chance = true →
        (s'.players.getD s.current PlayerState.start).has_second_chance = false ∧
        (s'.players.getD s.current PlayerState.start).busted =
          (s.players.getD s.current PlayerState.start).busted ∧
        (s'.players.getD s.current PlayerState.start).active = true) := by
  have hcur : s.current < s.players.length := by
    by_contra hge
    push_neg at hge
    rw [List.getD_eq_default _ _ hge] at hv
    simp [PlayerState.start] at hv
  set q : PlayerState := (if 0 < (curP s).pending_flips then
      { curP s with pending_flips := (curP s).pending_flips - 1 }
    else curP s) with hqdef
  have hqf : q.flipped = (curP s).flipped := by rw [hqdef]; split <;> rfl
  have hqs : q.has_second_chance = (curP s).has_second_chance := by
    rw [hqdef]; split <;> rfl
  have hqb : q.busted = (curP s).busted := by rw [hqdef]; split <;> rfl
  have hqa : q.active = (curP s).active := by rw [hqdef]; split <;> rfl
  have hvc : q.flipped.contains v = true := by
    rw [hqf]; exact List.elem_eq_true_of_mem hv
  refine ⟨_, step_hit shuf s ha hr _ _ hd, ?_, ?_, ?_⟩
  · simp only [resolveHit_eq]
    rw [getD_set_self _ _ _ _ hcur]
    simp only [hitPlayer]
    rw [if_pos hvc]
    by_cases hsc : q.has_second_chance = false
    · rw [if_pos hsc]; exact hqf
    · rw [if_neg hsc]; exact hqf
  · intro hsc0
    have hsc : q.has_second_chance = false := by rw [hqs]; exact hsc0
    simp only [resolveHit_eq]
    rw [getD_set_self _ _ _ _ hcur]
    simp only [hitPlayer]
    rw [if_pos hvc, if_pos hsc]
    exact ⟨rfl, rfl, hsc⟩
  · intro hsc0
    have hsc2 : q.has_second_chance = true := by rw [hqs]; exact hsc0
    simp only [resolveHit_eq]
    rw [getD_set_self _ _ _ _ hcur]
    simp only [hitPlayer]
    rw [if_pos hvc, if_neg (fun h => by rw [h] at hsc2; exact Bool.noConfusion hsc2)]
    exact ⟨rfl, hqb, hqa.trans ha⟩

/-- A closed instance of the duplicate-draw property: drawing a second 5
without a second chance busts the player. -/
theorem duplicate_draw_spec_witness :
    ∃ s' : GameState, step id
      ({ deck := { cards := [Card.number 5], discard := [] }
         players := [{ PlayerState.start with flipped := [5] }, PlayerState.start]
         current := 0
         round_active := true
         cumulative := [0, 0] } : GameState) "Hit" = some (s', some (Card.number 5)) ∧
      (s'.players.getD 0 PlayerState.start).flipped =
        (([{ PlayerState.start with flipped := [5] }, PlayerState.start] :
          List PlayerState).getD 0 PlayerState.start).flipped ∧
      ((([{ PlayerState.start with flipped := [5] }, PlayerState.start] :
          List PlayerState).getD 0 PlayerState.start).has_second_chance = false →
        (s'.players.getD 0 PlayerState.start).busted = true ∧
        (s'.players.getD 0 PlayerState.start).active = false ∧
        (s'.players.getD 0 PlayerState.start).has_second_chance = false) ∧
      ((([{ PlayerState.start with flipped := [5] }, PlayerState.start] :
          List PlayerState).getD 0 PlayerState.start).has_second_chance = true →
        (s'.players.getD 0 PlayerState.start).has_second_chance = false ∧
        (s'.players.getD 0 PlayerState.start).busted =
          (([{ PlayerState.start with flipped := [5] }, PlayerState.start] :
            List PlayerState).getD 0 PlayerState.start).busted ∧
        (s'.players.getD 0 PlayerState.start).active = true) :=
  duplicate_draw_spec id
    ({ deck := { cards := [Card.number 5], discard := [] }
       players := [{ PlayerState.start with flipped := [5] }, PlayerState.start]
       current := 0
       round_active := true
       cumulative := [0, 0] } : GameState) 5
    { cards := [], discard := [Card.number 5] } rfl rfl rfl (by decide)

/-- Iteration of Hit steps under the identity shuffle, used to build
concrete reachable states. -/
def stepN : Nat → GameState → GameState
  | 0, s => s
  | n + 1, s =>
    match step id s "Hit" with
    | some (s', _) => stepN n s'
    | none => s

/-- Iterated Hit steps stay within the reachable states. -/
theorem reachable_stepN (n : Nat) (s : GameState) (h : Reachable s) :
    Reachable (stepN n s) := by
  induction n generalizing s with
  | zero => exact h
  | succ n ih =>
    unfold stepN
    cases hs : step id s "Hit" with
    | none => exact h
    | some p =>
      obtain ⟨s', c⟩ := p
      exact ih s' (Reachable.next id s "Hit" s' c permOK_id h hs)

/-- A concrete reachable state: twelve Hits from the identity-shuffled
initial state leave player 1 with a pending freeze decision while both
players are still active. -/
def probeState : GameState := stepN 12 (GameState.initial id)

/-- C2 counterexample: at the reachable state probeState the token Hit is
not offered by get_actions, yet applying it draws a card and is therefore
not a no-op returning no card. -/
theorem step_illegal_counterexample :
    Reachable probeState ∧
    "Hit" ∉ get_actions probeState ∧
    step id probeState "Hit" ≠ some (probeState, none) := by
  refine ⟨reachable_stepN 12 _ (Reachable.base id permOK_id), by decide, ?_⟩
  intro h
  have h2 : (step id probeState "Hit").map (fun p => p.2) = some (none : Option Card) := by
    rw [h]; rfl
  have h3 : (step id probeState "Hit").map (fun p => p.2) =
      some (some (Card.action CardType.FREEZE)) := by decide
  rw [h2] at h3
  injection h3 with h4
  exact Option.noConfusion h4

/-- C2 amended: only a token outside the six recognized action tokens is
guaranteed to be a no-op returning no card, and apply can only fail on Hit
with both deck piles empty. -/
theorem step_unrecognized_noop (shuf : List Card → List Card) (s : GameState)
    (hp : PermOK shuf) :
    (∀ a : String, a ∉ (["Hit", "Stay", "KeepFlipThree", "PassFlipThree",
        "KeepFreeze", "PassFreeze"] : List String) →
      step shuf s a = some (s, none)) ∧
    (∀ a : String, step shuf s a = none →
      a = "Hit" ∧ s.deck.cards = [] ∧ s.deck.discard = []) := by
  constructor
  · intro a ha
    simp only [List.mem_cons, List.not_mem_nil, or_false, not_or] at ha
    obtain ⟨hh, hs, hkf, hpf, hkz, hpz⟩ := ha
    unfold step
    rw [if_neg (fun hx => hx.2.elim hkf hpf),
      if_neg (fun hx => hx.2.elim hkz hpz)]
    by_cases hin : (s.players.getD s.current PlayerState.start).active = false ∨
        s.round_active = false
    · rw [if_pos hin]
    · rw [if_neg hin, if_neg hs, if_neg hh]
  · intro a h
    by_cases c1 : (s.players.getD s.current PlayerState.start).need_flip_decision = true ∧
        (a = "KeepFlipThree" ∨ a = "PassFlipThree")
    · rcases c1.2 with rfl | rfl
      · rw [step_flip_keep shuf s c1.1] at h
        exact Option.noConfusion h
      · rw [step_flip_pass shuf s c1.1] at h
        exact Option.noConfusion h
    · by_cases c2 : (s.players.getD s.current PlayerState.start).need_freeze_decision
          = true ∧ (a = "KeepFreeze" ∨ a = "PassFreeze")
      · rcases c2.2 with rfl | rfl
        · rw [step_freeze_keep shuf s c2.1] at h
          split at h <;> exact Option.noConfusion h
        · rw [step_freeze_pass shuf s c2.1] at h
          split at h <;> exact Option.noConfusion h
      · by_cases c3 : (s.players.getD s.current PlayerState.start).active = false ∨
            s.round_active = false
        · rw [step_noop shuf s a c1 c2 c3] at h
          exact Option.noConfusion h
        · push_neg at c3
          have ha2 : (s.players.getD s.current PlayerState.start).active = true := by
            revert c3; cases (s.players.getD s.current PlayerState.start).active <;> simp
          have hr2 : s.round_active = true := by
            rcases c3 with ⟨-, c32⟩
            revert c32; cases s.round_active <;> simp
          by_cases c4 : a = "Stay"
          · subst c4
            rw [step_stay shuf s ha2 hr2] at h
            split at h <;> exact Option.noConfusion h
          · by_cases c5 : a = "Hit"
            · subst c5
              cases hd : s.deck.draw shuf with
              | none =>
                exact ⟨rfl, (draw_spec shuf s.deck hp).1.mp hd⟩
              | some p =>
                obtain ⟨card, deck₁⟩ := p
                rw [step_hit shuf s ha2 hr2 card deck₁ hd] at h
                exact Option.noConfusion h
            · unfold step at h
              rw [if_neg c1, if_neg c2,
                if_neg (fun hx => by
                  rcases hx with hx | hx
                  · rw [ha2] at hx; exact Bool.noConfusion hx
                  · rw [hr2] at hx; exact Bool.noConfusion hx),
                if_neg c4, if_neg c5] at h
              exact Option.noConfusion h

/-- A closed instance of the amended no-op property at an unrecognized
token. -/
theorem step_unrecognized_noop_witness :
    step id (GameState.initial id) "Flip" = some (GameState.initial id, none) :=
  (step_unrecognized_noop id (GameState.initial id) permOK_id).1 "Flip" (by decide)

/-- C7 counterexample: from the reachable state probeState, player 1 passes
the freeze to player 0; a player (player 1) remains active, yet the index
is toggled onto the now-inactive player 0, so the turn does not pass to the
other active player. No card is returned. -/
theorem freeze_pass_turn_counterexample :
    Reachable probeState ∧
    (probeState.players.getD probeState.current PlayerState.start).need_freeze_decision
      = true ∧
    ((step id probeState "PassFreeze").map fun p =>
        ((p.1.players.any fun q => q.active),
          (p.1.players.getD p.1.current PlayerState.start).active, p.2))
      = some (true, false, none) := by
  refine ⟨reachable_stepN 12 _ (Reachable.base id permOK_id), by decide, by decide⟩

/-- C7 amended: with the freeze decision pending in a two-player state,
KeepFreeze banks the current player's round score and deactivates them,
PassFreeze banks the other player's round score and deactivates that other
player; either branch clears the decision flag and returns no card, and
afterwards, if any player remains active the current index is XOR-toggled
to the other player (which after PassFreeze is the just-frozen inactive
player), while if none remain active the round flag is cleared and the
index is unchanged. -/
theorem freeze_decision_amended (shuf : List Card → List Card) (s : GameState)
    (hlen : s.players.length = 2) (hclen : s.cumulative.length = 2)
    (h : (s.players.getD s.current PlayerState.start).need_freeze_decision = true) :
    (∃ s' : GameState, step shuf s "KeepFreeze" = some (s', none) ∧
      s'.cumulative.getD s.current 0 =
        s.cumulative.getD s.current 0 + compute_round_score (curP s) ∧
      (s'.players.getD s.current PlayerState.start).active = false ∧
      (s'.players.getD s.current PlayerState.start).need_freeze_decision = false ∧
      (if (s'.players.any fun p => p.active) then
        s'.current = s.current ^^^ 1 ∧ s'.round_active = s.round_active
      else s'.round_active = false ∧ s'.current = s.current)) ∧
    (∃ s' : GameState, step shuf s "PassFreeze" = some (s', none) ∧
      s'.cumulative.getD (1 - s.current) 0 =
        s.cumulative.getD (1 - s.current) 0 + compute_round_score (othP s) ∧
      (s'.players.getD (1 - s.current) PlayerState.start).active = false ∧
      (s'.players.getD s.current PlayerState.start).need_freeze_decision = false ∧
      (if (s'.players.any fun p => p.active) then
        s'.current = s.current ^^^ 1 ∧ s'.round_active = s.round_active
      else s'.round_active = false ∧ s'.current = s.current)) := by
  have hcur : s.current < s.players.length := by
    by_contra hge
    push_neg at hge
    rw [List.getD_eq_default _ _ hge] at h
    simp [PlayerState.start] at h
  have hccur : s.current < s.cumulative.length := by
    rw [hclen]; rw [hlen] at hcur; exact hcur
  have hne : s.current ≠ 1 - s.current := by
    rw [hlen] at hcur; omega
  have hone : 1 - s.current < s.players.length := by
    rw [hlen] at hcur ⊢; omega
  have hcone : 1 - s.current < s.cumulative.length := by
    rw [hclen]; rw [hlen] at hcur; omega
  constructor
  · by_cases hany : ((s.players.set s.current
        { curP s with
          active := false
          need_freeze_decision := false }).any (fun p => p.active)) = true
    · refine ⟨_, by rw [step_freeze_keep shuf s h, if_pos hany], ?_, ?_, ?_, ?_⟩
      · rw [getD_set_self _ _ _ _ hccur]
      · rw [getD_set_self _ _ _ _ hcur]
      · rw [getD_set_self _ _ _ _ hcur]
      · rw [if_pos hany]
        exact ⟨rfl, rfl⟩
    · refine ⟨_, by rw [step_freeze_keep shuf s h, if_neg hany], ?_, ?_, ?_, ?_⟩
      · rw [getD_set_self _ _ _ _ hccur]
      · rw [getD_set_self _ _ _ _ hcur]
      · rw [getD_set_self _ _ _ _ hcur]
      · rw [if_neg hany]
        exact ⟨rfl, rfl⟩
  · by_cases hany : (((s.players.set (1 - s.current)
        { othP s with active := false }).set s.current
        { curP s with need_freeze_decision := false }).any (fun p => p.active)) = true
    · refine ⟨_, by rw [step_freeze_pass shuf s h, if_pos hany], ?_, ?_, ?_, ?_⟩
      · rw [getD_set_self _ _ _ _ hcone]
      · rw [getD_set_ne _ _ _ _ _ hne, getD_set_self _ _ _ _ hone]
      · rw [getD_set_self _ _ _ _ (by rw [List.length_set]; exact hcur)]
      · rw [if_pos hany]
        exact ⟨rfl, rfl⟩
    · refine ⟨_, by rw [step_freeze_pass shuf s h, if_neg hany], ?_, ?_, ?_, ?_⟩
      · rw [getD_set_self _ _ _ _ hcone]
      · rw [getD_set_ne _ _ _ _ _ hne, getD_set_self _ _ _ _ hone]
      · rw [getD_set_self _ _ _ _ (by rw [List.length_set]; exact hcur)]
      · rw [if_neg hany]
        exact ⟨rfl, rfl⟩

/-- A concrete two-player state with the freeze decision pending for
player 0. -/
def freezeWitState : GameState :=
  { deck := { cards := [], discard := [] }
    players := [{ PlayerState.start with need_freeze_decision := true },
      PlayerState.start]
    current := 0
    round_active := true
    cumulative := [0, 0] }

/-- A closed instance of the amended freeze-decision property. -/
theorem freeze_decision_amended_witness :
    ∃ s' : GameState, step id freezeWitState "KeepFreeze" = some (s', none) ∧
      s'.cumulative.getD freezeWitState.current 0 =
        freezeWitState.cumulative.getD freezeWitState.current 0 +
          compute_round_score (curP freezeWitState) ∧
      (s'.players.getD freezeWitState.current PlayerState.start).active = false ∧
      (s'.players.getD freezeWitState.current
        PlayerState.start).need_freeze_decision = false ∧
      (if (s'.players.any fun p => p.active) then
        s'.current = freezeWitState.current ^^^ 1 ∧
          s'.round_active = freezeWitState.round_active
      else s'.round_active = false ∧ s'.current = freezeWitState.current) :=
  (freeze_decision_amended id freezeWitState rfl rfl rfl).1

/-- Successor state of the KeepFlipThree branch. -/
@[reducible] def flipKeepState (s : GameState) : GameState :=
  let ps' : PlayerState :=
    { curP s with
      pending_flips := (curP s).pending_flips + 3
      need_flip_decision := false }
  { s with players := s.players.set s.current ps' }

/-- Successor state of the PassFlipThree branch. -/
@[reducible] def flipPassState (s : GameState) : GameState :=
  let other' : PlayerState := { othP s with pending_flips := (othP s).pending_flips + 3 }
  let ps' : PlayerState := { curP s with need_flip_decision := false }
  { s with
    players := (s.players.set (1 - s.current) other').set s.current ps'
    current := 1 - s.current }

/-- State after KeepFreeze banks and deactivates the current player,
before the turn is advanced. -/
@[reducible] def freezeKeepBase (s : GameState) : GameState :=
  let ps' : PlayerState :=
    { curP s with
      active := false
      need_freeze_decision := false }
  { s with
    cumulative := s.cumulative.set s.current
      (s.cumulative.getD s.current 0 + compute_round_score (curP s))
    players := s.players.set s.current ps' }

/-- State after PassFreeze banks and deactivates the other player, before
the turn is advanced. -/
@[reducible] def freezePassBase (s : GameState) : GameState :=
  let other' : PlayerState := { othP s with active := false }
  let ps' : PlayerState := { curP s with need_freeze_decision := false }
  { s with
    cumulative := s.cumulative.set (1 - s.current)
      (s.cumulative.getD (1 - s.current) 0 + compute_round_score (othP s))
    players := (s.players.set (1 - s.current) other').set s.current ps' }

/-- State after Stay banks and deactivates the current player, before the
turn is advanced. -/
@[reducible] def stayBase (s : GameState) : GameState :=
  { s with
    cumulative := s.cumulative.set s.current
      (s.cumulative.getD s.current 0 + compute_round_score (curP s))
    players := s.players.set s.current { curP s with active := false } }

/-- Turn advance or round end, shared by the freeze and stay branches. -/
@[reducible] def endTurn (s₁ : GameState) : GameState :=
  if s₁.players.any (fun p => p.active) then { s₁ with current := s₁.current ^^^ 1 }
  else { s₁ with round_active := false }

/-- The current player after the pending_flips decrement of the Hit branch. -/
@[reducible] def hitP (s : GameState) : PlayerState :=
  if 0 < (curP s).pending_flips then
    { curP s with pending_flips := (curP s).pending_flips - 1 }
  else curP s

/-- Commuting a conditional out of the returned pair. -/
theorem ite_some_pair {c : Prop} [Decidable c] (A B : GameState) :
    (if c then some ((A : GameState), (none : Option Card)) else some (B, none)) =
      some ((if c then A else B), none) := by
  split <;> rfl

/-- Exhaustive case analysis of a successful step call. -/
theorem step_cases (shuf : List Card → List Card) (s : GameState) (a : String)
    (s' : GameState) (c : Option Card) (h : step shuf s a = some (s', c)) :
    (c = none ∧ s' = flipKeepState s) ∨
    (c = none ∧ s' = flipPassState s) ∨
    (c = none ∧ s' = endTurn (freezeKeepBase s)) ∨
    (c = none ∧ s' = endTurn (freezePassBase s)) ∨
    (c = none ∧ s' = s) ∨
    ((curP s).active = true ∧ s.round_active = true ∧ c = none ∧
      s' = endTurn (stayBase s)) ∨
    (∃ card deck₁, (curP s).active = true ∧ s.round_active = true ∧
      s.deck.draw shuf = some (card, deck₁) ∧ c = some card ∧
      s' = resolveHit { s with deck := deck₁ } (hitP s) (othP s) card) := by
  by_cases c1 : (s.players.getD s.current PlayerState.start).need_flip_decision = true ∧
      (a = "KeepFlipThree" ∨ a = "PassFlipThree")
  · rcases c1.2 with rfl | rfl
    · rw [step_flip_keep shuf s c1.1] at h
      injection h with h2
      injection h2 with hA hB
      exact Or.inl ⟨hB.symm, hA.symm⟩
    · rw [step_flip_pass shuf s c1.1] at h
      injection h with h2
      injection h2 with hA hB
      exact Or.inr (Or.inl ⟨hB.symm, hA.symm⟩)
  · by_cases c2 : (s.players.getD s.current PlayerState.start).need_freeze_decision
        = true ∧ (a = "KeepFreeze" ∨ a = "PassFreeze")
    · rcases c2.2 with rfl | rfl
      · rw [step_freeze_keep shuf s c2.1, ite_some_pair] at h
        injection h with h2
        injection h2 with hA hB
        exact Or.inr (Or.inr (Or.inl ⟨hB.symm, hA.symm⟩))
      · rw [step_freeze_pass shuf s c2.1, ite_some_pair] at h
        injection h with h2
        injection h2 with hA hB
        exact Or.inr (Or.inr (Or.inr (Or.inl ⟨hB.symm, hA.symm⟩)))
    · by_cases c3 : (s.players.getD s.current PlayerState.start).active = false ∨
          s.round_active = false
      · rw [step_noop shuf s a c1 c2 c3] at h
        injection h with h2
        injection h2 with hA hB
        exact Or.inr (Or.inr (Or.inr (Or.inr (Or.inl ⟨hB.symm, hA.symm⟩))))
      · push_neg at c3
        have ha2 : (s.players.getD s.current PlayerState.start).active = true := by
          rcases c3 with ⟨c31, -⟩
          revert c31; cases (s.players.getD s.current PlayerState.start).active <;> simp
        have hr2 : s.round_active = true := by
          rcases c3 with ⟨-, c32⟩
          revert c32; cases s.round_active <;> simp
        by_cases c4 : a = "Stay"
        · subst c4
          rw [step_stay shuf s ha2 hr2, ite_some_pair] at h
          injection h with h2
          injection h2 with hA hB
          exact Or.inr (Or.inr (Or.inr (Or.inr (Or.inr (Or.inl
            ⟨ha2, hr2, hB.symm, hA.symm⟩)))))
        · by_cases c5 : a = "Hit"
          · subst c5
            cases hd : s.deck.draw shuf with
            | none =>
              rw [step_hit_none shuf s ha2 hr2 hd] at h
              exact Option.noConfusion h
            | some p =>
              obtain ⟨card, deck₁⟩ := p
              rw [step_hit shuf s ha2 hr2 card deck₁ hd] at h
              injection h with h2
              injection h2 with hA hB
              exact Or.inr (Or.inr (Or.inr (Or.inr (Or.inr (Or.inr
                ⟨card, deck₁, ha2, hr2, rfl, hB.symm, hA.symm⟩)))))
          · unfold step at h
            rw [if_neg c1, if_neg c2,
              if_neg (fun hx => by
                rcases hx with hx | hx
                · rw [ha2] at hx; exact Bool.noConfusion hx
                · rw [hr2] at hx; exact Bool.noConfusion hx),
              if_neg c4, if_neg c5] at h
            injection h with h2
            injection h2 with hA hB
            exact Or.inr (Or.inr (Or.inr (Or.inr (Or.inl ⟨hB.symm, hA.symm⟩))))

/-- Cards whose numeric payloads are non-negative, as all cards of the
fixed composition are. -/
def CardOK : Card → Prop
  | Card.number v => 0 ≤ v
  | Card.modifier _ a => 0 ≤ a
  | Card.action _ => True

instance instDecCardOK : (c : Card) → Decidable (CardOK c)
  | Card.number v => inferInstanceAs (Decidable (0 ≤ v))
  | Card.modifier _ a => inferInstanceAs (Decidable (0 ≤ a))
  | Card.action _ => inferInstanceAs (Decidable True)

/-- The amount payload of a well-formed card is non-negative. -/
theorem amount_nonneg (m : Card) (hm : CardOK m) : 0 ≤ m.amount := by
  cases m with
  | number v => exact le_refl 0
  | action t => exact le_refl 0
  | modifier t a => exact hm

/-- Player states whose collections only hold well-formed payloads. -/
def PlayerOK (p : PlayerState) : Prop :=
  (∀ v ∈ p.flipped, 0 ≤ v) ∧ (∀ m ∈ p.modifiers, CardOK m)

/-- The state invariant maintained by every reachable game state. -/
def Inv (s : GameState) : Prop :=
  s.players.length = 2 ∧ s.cumulative.length = 2 ∧
  (s.current = 0 ∨ s.current = 1) ∧
  (s.round_active = false ↔ ∀ p ∈ s.players, p.active = false) ∧
  (∀ c ∈ s.deck.cards, CardOK c) ∧ (∀ c ∈ s.deck.discard, CardOK c) ∧
  (∀ p ∈ s.players, PlayerOK p)

/-- Every card of the fixed composition is well formed. -/
theorem standardCards_ok : ∀ c ∈ standardCards, CardOK c := by decide

/-- Membership of a default-read element when the index is in range. -/
theorem getD_mem {α : Type} (l : List α) (i : Nat) (d : α) (h : i < l.length) :
    l.getD i d ∈ l := by
  rw [List.getD_eq_getElem l d h]
  exact List.getElem_mem h

/-- Replacing an element by one with the same activity flag does not change
whether every player is inactive. -/
theorem forall_inactive_set (l : List PlayerState) (i : Nat) (x : PlayerState)
    (hx : x.active = (l.getD i PlayerState.start).active) :
    (∀ p ∈ l.set i x, p.active = false) ↔ (∀ p ∈ l, p.active = false) := by
  by_cases hi : i < l.length
  · have hxl : x ∈ l.set i x := by
      have h1 : i < (l.set i x).length := by rw [List.length_set]; exact hi
      have h2 : (l.set i x)[i] = x := by
        rw [List.getElem_set]
        exact if_pos rfl
      have h3 := List.getElem_mem h1
      rw [h2] at h3
      exact h3
    constructor
    · intro hall p hp
      obtain ⟨j, hj, rfl⟩ := List.getElem_of_mem hp
      by_cases hij : i = j
      · subst hij
        have h3 := hall x hxl
        rw [hx, List.getD_eq_getElem l _ hi] at h3
        exact h3
      · have h4 : j < (l.set i x).length := by rw [List.length_set]; exact hj
        have h5 := hall ((l.set i x)[j]) (List.getElem_mem h4)
        rw [List.getElem_set, if_neg hij] at h5
        exact h5
    · intro hall p hp
      rcases List.mem_or_eq_of_mem_set hp with hp2 | rfl
      · exact hall p hp2
      · rw [hx, List.getD_eq_getElem l _ hi]
        exact hall _ (List.getElem_mem hi)
  · push_neg at hi
    rw [List.set_eq_of_length_le hi]

/-- A successful draw returns a card of the deck and only rearranges cards
of the deck. -/
theorem draw_mem (shuf : List Card → List Card) (d : Deck) (c : Card) (d' : Deck)
    (hp : PermOK shuf) (h : d.draw shuf = some (c, d')) :
    (c ∈ d.cards ∨ c ∈ d.discard) ∧
    (∀ x ∈ d'.cards, x ∈ d.cards ∨ x ∈ d.discard) ∧
    (∀ x ∈ d'.discard, x ∈ d.cards ∨ x ∈ d.discard) := by
  by_cases hc : d.cards = []
  · by_cases hdis : d.discard = []
    · rw [(draw_spec shuf d hp).1.mpr ⟨hc, hdis⟩] at h
      exact Option.noConfusion h
    · obtain ⟨c₂, hlast, hdraw⟩ := (draw_spec shuf d hp).2.1 hc hdis
      rw [hdraw] at h
      obtain ⟨rfl, rfl⟩ : c₂ = c ∧
          d' = { cards := (shuf d.discard).dropLast, discard := [c₂] } := by
        cases h; exact ⟨rfl, rfl⟩
      have hmem : ∀ x ∈ shuf d.discard, x ∈ d.discard :=
        fun x hx => (hp d.discard).mem_iff.mp hx
      refine ⟨Or.inr (hmem _ (List.mem_of_mem_getLast? (by simp [hlast]))), ?_, ?_⟩
      · intro x hx
        exact Or.inr (hmem _ (List.dropLast_subset _ hx))
      · intro x hx
        rw [List.mem_singleton] at hx
        subst hx
        exact Or.inr (hmem _ (List.mem_of_mem_getLast? (by simp [hlast])))
  · obtain ⟨c₂, hlast, hdraw⟩ := (draw_spec shuf d hp).2.2 hc
    rw [hdraw] at h
    obtain ⟨rfl, rfl⟩ : c₂ = c ∧
        d' = { cards := d.cards.dropLast, discard := d.discard ++ [c₂] } := by
      cases h; exact ⟨rfl, rfl⟩
    refine ⟨Or.inl (List.mem_of_mem_getLast? (by simp [hlast])), ?_, ?_⟩
    · intro x hx
      exact Or.inl (List.dropLast_subset _ hx)
    · intro x hx
      rcases List.mem_append.mp hx with hx2 | hx2
      · exact Or.inr hx2
      · rw [List.mem_singleton] at hx2
        subst hx2
        exact Or.inl (List.mem_of_mem_getLast? (by simp [hlast]))

/-- The turn-advance step preserves the invariant, given that the base
state satisfies all invariant components except possibly the full round
flag equivalence, of which only the forward direction is needed. -/
theorem inv_endTurn (X : GameState)
    (hpl : X.players.length = 2) (hcl : X.cumulative.length = 2)
    (hcu : X.current = 0 ∨ X.current = 1)
    (hra : X.round_active = false → ∀ p ∈ X.players, p.active = false)
    (hdc : ∀ c ∈ X.deck.cards, CardOK c) (hdd : ∀ c ∈ X.deck.discard, CardOK c)
    (hpOK : ∀ p ∈ X.players, PlayerOK p) : Inv (endTurn X) := by
  unfold endTurn Inv
  split
  next hany =>
    obtain ⟨p, hpm, hpa⟩ := List.any_eq_true.mp hany
    refine ⟨hpl, hcl, ?_, ?_, hdc, hdd, hpOK⟩
    · rcases hcu with h0 | h1
      · right; simp [h0]
      · left; simp [h1]
    · constructor
      · intro hf
        rw [hra hf p hpm] at hpa
        exact Bool.noConfusion hpa
      · intro hall
        rw [hall p hpm] at hpa
        exact Bool.noConfusion hpa
  next hany =>
    have hall : ∀ p ∈ X.players, p.active = false := by
      intro p hpm
      have hb := Bool.eq_false_iff.mpr (fun hpt => hany (List.any_eq_true.mpr
        ⟨p, hpm, hpt⟩))
      exact hb
    exact ⟨hpl, hcl, hcu, ⟨fun _ => hall, fun _ => rfl⟩, hdc, hdd, hpOK⟩

/-- Projection of resolveHit onto the player list. -/
theorem resolveHit_players (s : GameState) (ps other : PlayerState) (card : Card) :
    (resolveHit s ps other card).players =
      s.players.set s.current (hitPlayer ps other card) := by
  rw [resolveHit_eq]

/-- Projection of resolveHit onto the cumulative scores. -/
theorem resolveHit_cumulative (s : GameState) (ps other : PlayerState) (card : Card) :
    (resolveHit s ps other card).cumulative = hitCumulative s ps other card := by
  rw [resolveHit_eq]

/-- Projection of resolveHit onto the current index. -/
theorem resolveHit_current (s : GameState) (ps other : PlayerState) (card : Card) :
    (resolveHit s ps other card).current =
      (if (hitPlayer ps other card).need_flip_decision = false ∧
          (hitPlayer ps other card).need_freeze_decision = false ∧
          (hitPlayer ps other card).pending_flips = 0 then
        s.current ^^^ 1
      else s.current) := by
  rw [resolveHit_eq]

/-- Projection of resolveHit onto the round flag. -/
theorem resolveHit_round (s : GameState) (ps other : PlayerState) (card : Card) :
    (resolveHit s ps other card).round_active =
      (if (s.players.set s.current (hitPlayer ps other card)).any
          (fun p => p.active) then s.round_active
      else false) := by
  rw [resolveHit_eq]

/-- Projection of resolveHit onto the deck. -/
theorem resolveHit_deck (s : GameState) (ps other : PlayerState) (card : Card) :
    (resolveHit s ps other card).deck = s.deck := by
  rw [resolveHit_eq]

/-- The Hit branch never changes the length of the cumulative list. -/
theorem hitCumulative_length (X : GameState) (q o : PlayerState) (card : Card) :
    (hitCumulative X q o card).length = X.cumulative.length := by
  cases card with
  | number v => rfl
  | action t =>
    simp only [hitCumulative]
    split_ifs <;> simp
  | modifier t a => rfl

/-- The pending-flips decrement preserves collection well-formedness. -/
theorem playerOK_hitP (s : GameState) (h : PlayerOK (curP s)) : PlayerOK (hitP s) := by
  unfold hitP
  split <;> exact h

/-- Resolving a well-formed drawn card keeps the player well formed. -/
theorem playerOK_hitPlayer (ps o : PlayerState) (card : Card)
    (hps : PlayerOK ps) (hc : CardOK card) : PlayerOK (hitPlayer ps o card) := by
  cases card with
  | number v =>
    simp only [hitPlayer]
    split_ifs
    · exact hps
    · exact hps
    · refine ⟨?_, hps.2⟩
      intro x hx
      rcases List.mem_append.mp hx with hx2 | hx2
      · exact hps.1 x hx2
      · rw [List.mem_singleton] at hx2
        subst hx2
        exact hc
  | action t =>
    simp only [hitPlayer]
    split_ifs <;> exact hps
  | modifier t a =>
    simp only [hitPlayer]
    refine ⟨hps.1, ?_⟩
    intro m hm
    rcases List.mem_append.mp hm with hm2 | hm2
    · exact hps.2 m hm2
    · rw [List.mem_singleton] at hm2
      subst hm2
      exact hc

/-- Every step call preserves the state invariant. -/
theorem inv_preserved (shuf : List Card → List Card) (s : GameState) (a : String)
    (s' : GameState) (c : Option Card) (hp : PermOK shuf) (hi : Inv s)
    (h : step shuf s a = some (s', c)) : Inv s' := by
  obtain ⟨hpl, hcl, hcu, hiff, hdc, hdd, hpOK⟩ := hi
  have hcur2 : s.current < s.players.length := by
    rw [hpl]; rcases hcu with h0 | h1 <;> omega
  have hone : 1 - s.current < s.players.length := by
    rw [hpl]; omega
  have hne : (1 - s.current) ≠ s.current := by
    rcases hcu with h0 | h1 <;> omega
  have hmemCur : curP s ∈ s.players := getD_mem _ _ _ hcur2
  have hmemOth : othP s ∈ s.players := getD_mem _ _ _ hone
  rcases step_cases shuf s a s' c h with
    ⟨rfl, rfl⟩ | ⟨rfl, rfl⟩ | ⟨rfl, rfl⟩ | ⟨rfl, rfl⟩ | ⟨rfl, rfl⟩ |
    ⟨ha2, hr2, rfl, rfl⟩ | ⟨card, deck₁, ha2, hr2, hd, rfl, rfl⟩
  · refine ⟨by simp [flipKeepState, hpl], hcl, hcu, ?_, hdc, hdd, ?_⟩
    · exact hiff.trans (forall_inactive_set _ _ _ (by rfl)).symm
    · intro p hp2
      rcases List.mem_or_eq_of_mem_set hp2 with h2 | rfl
      · exact hpOK p h2
      · exact ⟨(hpOK (curP s) hmemCur).1, (hpOK (curP s) hmemCur).2⟩
  · refine ⟨by simp [flipPassState, hpl], hcl, ?_, ?_, hdc, hdd, ?_⟩
    · rcases hcu with h0 | h1
      · right; simp [flipPassState, h0]
      · left; simp [flipPassState, h1]
    · exact hiff.trans ((forall_inactive_set s.players (1 - s.current) _ (by rfl)).symm.trans
        (forall_inactive_set _ s.current _
          (by rw [getD_set_ne _ _ _ _ _ hne])).symm)
    · intro p hp2
      rcases List.mem_or_eq_of_mem_set hp2 with h2 | rfl
      · rcases List.mem_or_eq_of_mem_set h2 with h3 | rfl
        · exact hpOK p h3
        · exact ⟨(hpOK (othP s) hmemOth).1, (hpOK (othP s) hmemOth).2⟩
      · exact ⟨(hpOK (curP s) hmemCur).1, (hpOK (curP s) hmemCur).2⟩
  · refine inv_endTurn _ (by simp [freezeKeepBase, hpl])
      (by simp [freezeKeepBase, hcl]) hcu ?_ hdc hdd ?_
    · intro hf p hp2
      have hall := hiff.mp hf
      rcases List.mem_or_eq_of_mem_set hp2 with h2 | rfl
      · exact hall p h2
      · rfl
    · intro p hp2
      rcases List.mem_or_eq_of_mem_set hp2 with h2 | rfl
      · exact hpOK p h2
      · exact ⟨(hpOK (curP s) hmemCur).1, (hpOK (curP s) hmemCur).2⟩
  · refine inv_endTurn _ (by simp [freezePassBase, hpl])
      (by simp [freezePassBase, hcl]) hcu ?_ hdc hdd ?_
    · intro hf p hp2
      have hall := hiff.mp hf
      rcases List.mem_or_eq_of_mem_set hp2 with h2 | rfl
      · rcases List.mem_or_eq_of_mem_set h2 with h3 | rfl
        · exact hall p h3
        · rfl
      · exact hall (curP s) hmemCur
    · intro p hp2
      rcases List.mem_or_eq_of_mem_set hp2 with h2 | rfl
      · rcases List.mem_or_eq_of_mem_set h2 with h3 | rfl
        · exact hpOK p h3
        · exact ⟨(hpOK (othP s) hmemOth).1, (hpOK (othP s) hmemOth).2⟩
      · exact ⟨(hpOK (curP s) hmemCur).1, (hpOK (curP s) hmemCur).2⟩
  · exact ⟨hpl, hcl, hcu, hiff, hdc, hdd, hpOK⟩
  · refine inv_endTurn _ (by simp [stayBase, hpl]) (by simp [stayBase, hcl])
      hcu ?_ hdc hdd ?_
    · intro hf
      rw [hr2] at hf
      exact Bool.noConfusion hf
    · intro p hp2
      rcases List.mem_or_eq_of_mem_set hp2 with h2 | rfl
      · exact hpOK p h2
      · exact ⟨(hpOK (curP s) hmemCur).1, (hpOK (curP s) hmemCur).2⟩
  · have hdm := draw_mem shuf s.deck card deck₁ hp hd
    have hcOK : CardOK card := by
      rcases hdm.1 with h2 | h2
      · exact hdc card h2
      · exact hdd card h2
    refine ⟨?_, ?_, ?_, ?_, ?_, ?_, ?_⟩
    · rw [resolveHit_players]
      simp [hpl]
    · rw [resolveHit_cumulative, hitCumulative_length]
      exact hcl
    · rw [resolveHit_current]
      split
      · rcases hcu with h0 | h1
        · right; simp [h0]
        · left; simp [h1]
      · exact hcu
    · rw [resolveHit_round, resolveHit_players]
      split
      next hany =>
        obtain ⟨p, hpm, hpa⟩ := List.any_eq_true.mp hany
        constructor
        · intro hf
          have hf2 : s.round_active = false := hf
          rw [hr2] at hf2
          exact Bool.noConfusion hf2
        · intro hall
          rw [hall p hpm] at hpa
          exact Bool.noConfusion hpa
      next hany =>
        have hall : ∀ p2 ∈ (({ s with deck := deck₁ } : GameState).players.set
            ({ s with deck := deck₁ } : GameState).current
            (hitPlayer (hitP s) (othP s) card)), p2.active = false := by
          intro p2 hpm
          exact Bool.eq_false_iff.mpr (fun hpt => hany (List.any_eq_true.mpr
            ⟨p2, hpm, hpt⟩))
        exact ⟨fun _ => hall, fun _ => rfl⟩
    · rw [resolveHit_deck]
      intro x hx
      rcases hdm.2.1 x hx with h2 | h2
      · exact hdc x h2
      · exact hdd x h2
    · rw [resolveHit_deck]
      intro x hx
      rcases hdm.2.2 x hx with h2 | h2
      · exact hdc x h2
      · exact hdd x h2
    · rw [resolveHit_players]
      intro p hp2
      rcases List.mem_or_eq_of_mem_set hp2 with h2 | rfl
      · exact hpOK p h2
      · exact playerOK_hitPlayer _ _ _ (playerOK_hitP s (hpOK (curP s) hmemCur)) hcOK

/-- The turn-advance step does not change the player list. -/
theorem endTurn_players (X : GameState) : (endTurn X).players = X.players := by
  unfold endTurn
  split <;> rfl

/-- The turn-advance step does not change the cumulative scores. -/
theorem endTurn_cumulative (X : GameState) : (endTurn X).cumulative = X.cumulative := by
  unfold endTurn
  split <;> rfl

/-- The pending-flips decrement does not change the activity flag. -/
theorem hitP_active (s : GameState) : (hitP s).active = (curP s).active := by
  unfold hitP
  split <;> rfl

/-- A boolean cannot be both true and false. -/
theorem absurd_active {C : Prop} {b : Bool} (h1 : b = true) (h2 : b = false) : C := by
  rw [h1] at h2
  exact Bool.noConfusion h2

/-- Every reachable state satisfies the invariant. -/
theorem reachable_inv (s : GameState) (hs : Reachable s) : Inv s := by
  induction hs with
  | base shuf h =>
    refine ⟨rfl, rfl, Or.inl rfl, ?_, ?_, ?_, ?_⟩
    · constructor
      · intro hf
        exact Bool.noConfusion hf
      · intro hall
        have := hall PlayerState.start (List.mem_cons_self _ _)
        exact Bool.noConfusion this
    · intro x hx
      exact standardCards_ok x ((h standardCards).mem_iff.mp hx)
    · intro x hx
      cases hx
    · intro p hp
      have hps : p = PlayerState.start := by
        rcases List.mem_cons.mp hp with h1 | h1
        · exact h1
        · rw [List.mem_singleton] at h1
          exact h1
      subst hps
      exact ⟨fun v hv => absurd hv (List.not_mem_nil v), fun m hm => absurd hm
        (List.not_mem_nil m)⟩
  | next shuf s a s' c hp hs h ih =>
    exact inv_preserved shuf s a s' c hp ih h

/-- Round scores are non-negative for well-formed players. -/
theorem compute_round_score_nonneg (p : PlayerState) (hpOK : PlayerOK p) :
    0 ≤ compute_round_score p := by
  unfold compute_round_score
  by_cases hb : p.busted
  · simp [hb]
  · simp only [hb, if_false, Bool.false_eq_true]
    rw [foldl_mult_eq, foldl_add_eq]
    have h1 : (0 : Int) ≤ p.flipped.sum := List.sum_nonneg hpOK.1
    have h2 : (0 : Int) ≤ ((p.modifiers.filter fun m =>
        decide (m.cardType = CardType.MULTIPLIER)).map Card.amount).prod := by
      refine List.prod_nonneg ?_
      intro x hx
      obtain ⟨m, hm, rfl⟩ := List.mem_map.mp hx
      exact amount_nonneg m (hpOK.2 m (List.mem_of_mem_filter hm))
    have h3 : (0 : Int) ≤ ((p.modifiers.filter fun m =>
        decide (m.cardType = CardType.ADDITIVE)).map Card.amount).sum := by
      refine List.sum_nonneg ?_
      intro x hx
      obtain ⟨m, hm, rfl⟩ := List.mem_map.mp hx
      exact amount_nonneg m (hpOK.2 m (List.mem_of_mem_filter hm))
    have h4 : (0 : Int) ≤ p.flipped.sum *
        ((p.modifiers.filter fun m =>
          decide (m.cardType = CardType.MULTIPLIER)).map Card.amount).prod + ((p.modifiers.filter fun m =>
          decide (m.cardType = CardType.ADDITIVE)).map Card.amount).sum :=
      add_nonneg (mul_nonneg h1 h2) h3
    by_cases h7 : 7 ≤ p.flipped.dedup.length
    · simp only [h7, if_true]
      exact add_nonneg h4 (by norm_num)
    · simp only [h7, if_false]
      exact h4

/-- Projection lemmas for the per-branch successor states. -/
theorem flipKeepState_players (s : GameState) :
    (flipKeepState s).players = s.players.set s.current
      { curP s with
        pending_flips := (curP s).pending_flips + 3
        need_flip_decision := false } := rfl

/-- Projection of the PassFlipThree successor onto the player list. -/
theorem flipPassState_players (s : GameState) :
    (flipPassState s).players = (s.players.set (1 - s.current)
        { othP s with pending_flips := (othP s).pending_flips + 3 }).set s.current
      { curP s with need_flip_decision := false } := rfl

/-- Projection of the KeepFreeze base state onto the player list. -/
theorem freezeKeepBase_players (s : GameState) :
    (freezeKeepBase s).players = s.players.set s.current
      { curP s with
        active := false
        need_freeze_decision := false } := rfl

/-- Projection of the KeepFreeze base state onto the cumulative scores. -/
theorem freezeKeepBase_cumulative (s : GameState) :
    (freezeKeepBase s).cumulative = s.cumulative.set s.current
      (s.cumulative.getD s.current 0 + compute_round_score (curP s)) := rfl

/-- Projection of the PassFreeze base state onto the player list. -/
theorem freezePassBase_players (s : GameState) :
    (freezePassBase s).players = (s.players.set (1 - s.current)
        { othP s with active := false }).set s.current
      { curP s with need_freeze_decision := false } := rfl

/-- Projection of the PassFreeze base state onto the cumulative scores. -/
theorem freezePassBase_cumulative (s : GameState) :
    (freezePassBase s).cumulative = s.cumulative.set (1 - s.current)
      (s.cumulative.getD (1 - s.current) 0 + compute_round_score (othP s)) := rfl

/-- Projection of the Stay base state onto the player list. -/
theorem stayBase_players (s : GameState) :
    (stayBase s).players = s.players.set s.current
      { curP s with active := false } := rfl

/-- Projection of the Stay base state onto the cumulative scores. -/
theorem stayBase_cumulative (s : GameState) :
    (stayBase s).cumulative = s.cumulative.set s.current
      (s.cumulative.getD s.current 0 + compute_round_score (curP s)) := rfl

/-- Whenever a step deactivates a player, that player's cumulative score
grows by exactly the round score of their state at the moment of
deactivation. -/
theorem banking_step (shuf : List Card → List Card) (s : GameState) (a : String)
    (s' : GameState) (c : Option Card) (hp : PermOK shuf) (hi : Inv s)
    (h : step shuf s a = some (s', c)) :
    ∀ i : Nat, (s.players.getD i PlayerState.start).active = true →
      (s'.players.getD i PlayerState.start).active = false →
      s'.cumulative.getD i 0 = s.cumulative.getD i 0 +
        compute_round_score (s'.players.getD i PlayerState.start) := by
  obtain ⟨hpl, hcl, hcu, hiff, hdc, hdd, hpOK⟩ := hi
  have hcur2 : s.current < s.players.length := by
    rw [hpl]; rcases hcu with h0 | h1 <;> omega
  have hccur : s.current < s.cumulative.length := by
    rw [hcl]; rcases hcu with h0 | h1 <;> omega
  have honep : 1 - s.current < s.players.length := by rw [hpl]; omega
  have honec : 1 - s.current < s.cumulative.length := by rw [hcl]; omega
  rcases step_cases shuf s a s' c h with
    ⟨rfl, rfl⟩ | ⟨rfl, rfl⟩ | ⟨rfl, rfl⟩ | ⟨rfl, rfl⟩ | ⟨rfl, rfl⟩ |
    ⟨ha2, hr2, rfl, rfl⟩ | ⟨card, deck₁, ha2, hr2, hd, rfl, rfl⟩
  · intro i hA hI
    rw [flipKeepState_players] at hI
    by_cases hic : i = s.current
    · subst hic
      rw [getD_set_self _ _ _ _ hcur2] at hI
      exact absurd_active hA hI
    · rw [getD_set_ne _ _ _ _ _ (fun hh => hic hh.symm)] at hI
      exact absurd_active hA hI
  · intro i hA hI
    rw [flipPassState_players] at hI
    by_cases hic : i = s.current
    · subst hic
      rw [getD_set_self _ _ _ _ (by rw [List.length_set]; exact hcur2)] at hI
      exact absurd_active hA hI
    · rw [getD_set_ne _ _ _ _ _ (fun hh => hic hh.symm)] at hI
      by_cases hio : i = 1 - s.current
      · subst hio
        rw [getD_set_self _ _ _ _ honep] at hI
        exact absurd_active hA hI
      · rw [getD_set_ne _ _ _ _ _ (fun hh => hio hh.symm)] at hI
        exact absurd_active hA hI
  · intro i hA hI
    rw [endTurn_players, freezeKeepBase_players] at hI
    rw [endTurn_cumulative, endTurn_players, freezeKeepBase_players,
      freezeKeepBase_cumulative]
    by_cases hic : i = s.current
    · subst hic
      rw [getD_set_self _ _ _ _ hccur, getD_set_self _ _ _ _ hcur2]
      exact rfl
    · rw [getD_set_ne _ _ _ _ _ (fun hh => hic hh.symm)] at hI
      exact absurd_active hA hI
  · intro i hA hI
    rw [endTurn_players, freezePassBase_players] at hI
    rw [endTurn_cumulative, endTurn_players, freezePassBase_players,
      freezePassBase_cumulative]
    by_cases hic : i = s.current
    · subst hic
      rw [getD_set_self _ _ _ _ (by rw [List.length_set]; exact hcur2)] at hI
      exact absurd_active hA hI
    · rw [getD_set_ne _ _ _ _ _ (fun hh => hic hh.symm)] at hI
      rw [getD_set_ne _ _ _ _ _ (fun hh => hic hh.symm)]
      by_cases hio : i = 1 - s.current
      · subst hio
        rw [getD_set_self _ _ _ _ honep] at hI
        rw [getD_set_self _ _ _ _ honec, getD_set_self _ _ _ _ honep]
        exact rfl
      · rw [getD_set_ne _ _ _ _ _ (fun hh => hio hh.symm)] at hI
        exact absurd_active hA hI
  · intro i hA hI
    exact absurd_active hA hI
  · intro i hA hI
    rw [endTurn_players, stayBase_players] at hI
    rw [endTurn_cumulative, endTurn_players, stayBase_players, stayBase_cumulative]
    by_cases hic : i = s.current
    · subst hic
      rw [getD_set_self _ _ _ _ hccur, getD_set_self _ _ _ _ hcur2]
      exact rfl
    · rw [getD_set_ne _ _ _ _ _ (fun hh => hic hh.symm)] at hI
      exact absurd_active hA hI
  · intro i hA hI
    rw [resolveHit_players] at hI
    rw [resolveHit_cumulative, resolveHit_players]
    by_cases hic : i = s.current
    · subst hic
      rw [getD_set_self _ _ _ _ hcur2] at hI
      rw [getD_set_self _ _ _ _ hcur2]
      cases card with
      | number v =>
        simp only [hitPlayer] at hI ⊢
        split_ifs at hI ⊢ with hvc hsc
        · simp [hitCumulative, compute_round_score]
        · have hI2 : (hitP s).active = false := hI
          rw [hitP_active] at hI2
          exact absurd_active hA hI2
        · have hI2 : (hitP s).active = false := hI
          rw [hitP_active] at hI2
          exact absurd_active hA hI2
      | action t =>
        simp only [hitPlayer] at hI ⊢
        simp only [hitCumulative]
        split_ifs at hI ⊢ with h1 h2 h3 h4
        · have hI2 : (hitP s).active = false := hI
          rw [hitP_active] at hI2
          exact absurd_active hA hI2
        · have hI2 : (hitP s).active = false := hI
          rw [hitP_active] at hI2
          exact absurd_active hA hI2
        · have hI2 : (hitP s).active = false := hI
          rw [hitP_active] at hI2
          exact absurd_active hA hI2
        · rw [getD_set_self _ _ _ _ hccur]
          exact rfl
        · have hI2 : (hitP s).active = false := hI
          rw [hitP_active] at hI2
          exact absurd_active hA hI2
      | modifier t2 a2 =>
        simp only [hitPlayer] at hI
        have hI2 : (hitP s).active = false := hI
        rw [hitP_active] at hI2
        exact absurd_active hA hI2
    · rw [getD_set_ne _ _ _ _ _ (fun hh => hic hh.symm)] at hI
      exact absurd_active hA hI

/-- C8: in every reachable state the round flag is false exactly when every
player is inactive, and every step that deactivates a player adds exactly
compute_round_score of that player's state at the moment of deactivation
to their cumulative score (zero for a bust, since the busted state scores
zero). -/
theorem round_termination_banking (s : GameState) (hs : Reachable s) :
    (s.round_active = false ↔ ∀ p ∈ s.players, p.active = false) ∧
    (∀ (shuf : List Card → List Card) (a : String) (s' : GameState)
        (c : Option Card), PermOK shuf → step shuf s a = some (s', c) →
      ∀ i : Nat, (s.players.getD i PlayerState.start).active = true →
        (s'.players.getD i PlayerState.start).active = false →
        s'.cumulative.getD i 0 = s.cumulative.getD i 0 +
          compute_round_score (s'.players.getD i PlayerState.start)) := by
  have hi := reachable_inv s hs
  exact ⟨hi.2.2.2.1, fun shuf a s' c hp h => banking_step shuf s a s' c hp hi h⟩

/-- A closed instance of round termination at the initial state: the round
is live and not every player is inactive. -/
theorem round_termination_banking_witness :
    (GameState.initial id).round_active = false ↔
      ∀ p ∈ (GameState.initial id).players, p.active = false :=
  (round_termination_banking (GameState.initial id) (Reachable.base id permOK_id)).1

/-- C9: for every reachable state, every player's round score is
non-negative, and no step call decreases any entry of the cumulative score
list. -/
theorem cumulative_monotone (s : GameState) (hs : Reachable s) :
    (∀ p ∈ s.players, 0 ≤ compute_round_score p) ∧
    (∀ (shuf : List Card → List Card) (a : String) (s' : GameState)
        (c : Option Card), PermOK shuf → step shuf s a = some (s', c) →
      ∀ i : Nat, s.cumulative.getD i 0 ≤ s'.cumulative.getD i 0) := by
  obtain ⟨hpl, hcl, hcu, hiff, hdc, hdd, hpOK⟩ := reachable_inv s hs
  have hcur2 : s.current < s.players.length := by
    rw [hpl]; rcases hcu with h0 | h1 <;> omega
  have hccur : s.current < s.cumulative.length := by
    rw [hcl]; rcases hcu with h0 | h1 <;> omega
  have honep : 1 - s.current < s.players.length := by rw [hpl]; omega
  have honec : 1 - s.current < s.cumulative.length := by rw [hcl]; omega
  have hmemCur : curP s ∈ s.players := getD_mem _ _ _ hcur2
  have hmemOth : othP s ∈ s.players := getD_mem _ _ _ honep
  have hnnCur : 0 ≤ compute_round_score (curP s) :=
    compute_round_score_nonneg _ (hpOK _ hmemCur)
  have hnnOth : 0 ≤ compute_round_score (othP s) :=
    compute_round_score_nonneg _ (hpOK _ hmemOth)
  constructor
  · intro p hp2
    exact compute_round_score_nonneg p (hpOK p hp2)
  · intro shuf a s' c hp h i
    rcases step_cases shuf s a s' c h with
      ⟨rfl, rfl⟩ | ⟨rfl, rfl⟩ | ⟨rfl, rfl⟩ | ⟨rfl, rfl⟩ | ⟨rfl, rfl⟩ |
      ⟨ha2, hr2, rfl, rfl⟩ | ⟨card, deck₁, ha2, hr2, hd, rfl, rfl⟩
    · exact le_refl _
    · exact le_refl _
    · rw [endTurn_cumulative, freezeKeepBase_cumulative]
      by_cases hic : i = s.current
      · subst hic
        rw [getD_set_self _ _ _ _ hccur]
        exact le_add_of_nonneg_right hnnCur
      · rw [getD_set_ne _ _ _ _ _ (fun hh => hic hh.symm)]
    · rw [endTurn_cumulative, freezePassBase_cumulative]
      by_cases hio : i = 1 - s.current
      · subst hio
        rw [getD_set_self _ _ _ _ honec]
        exact le_add_of_nonneg_right hnnOth
      · rw [getD_set_ne _ _ _ _ _ (fun hh => hio hh.symm)]
    · exact le_refl _
    · rw [endTurn_cumulative, stayBase_cumulative]
      by_cases hic : i = s.current
      · subst hic
        rw [getD_set_self _ _ _ _ hccur]
        exact le_add_of_nonneg_right hnnCur
      · rw [getD_set_ne _ _ _ _ _ (fun hh => hic hh.symm)]
    · rw [resolveHit_cumulative]
      have hnnQ : 0 ≤ compute_round_score (hitP s) :=
        compute_round_score_nonneg _ (playerOK_hitP s (hpOK _ hmemCur))
      cases card with
      | number v => exact le_refl _
      | modifier t2 a2 => exact le_refl _
      | action t =>
        simp only [hitCumulative]
        split_ifs with h1 h2 h3
        · exact le_refl _
        · exact le_refl _
        · by_cases hic : i = s.current
          · subst hic
            rw [getD_set_self _ _ _ _ hccur]
            exact le_add_of_nonneg_right hnnQ
          · rw [getD_set_ne _ _ _ _ _ (fun hh => hic hh.symm)]
        · exact le_refl _

/-- A closed instance of score non-negativity at the initial state. -/
theorem cumulative_monotone_witness :
    0 ≤ compute_round_score PlayerState.start :=
  (cumulative_monotone (GameState.initial id) (Reachable.base id permOK_id)).1
    PlayerState.start (List.mem_cons_self _ _)

/-- C10: NumberCard construction never fails, for any integer value
including negative ones, while ActionCard and ModifierCard construction
succeed exactly on their allowed discriminants. -/
theorem card_construction_validation :
    (∀ v : Int, mkNumberCard v = some (Card.number v)) ∧
    mkNumberCard (-5) = some (Card.number (-5)) ∧
    (∀ t : CardType, (mkActionCard t).isSome = true ↔
      t = CardType.FLIP_THREE ∨ t = CardType.FREEZE ∨ t = CardType.SECOND_CHANCE) ∧
    (∀ (t : CardType) (a : Int), (mkModifierCard t a).isSome = true ↔
      t = CardType.ADDITIVE ∨ t = CardType.MULTIPLIER) := by
  refine ⟨fun v => rfl, rfl, fun t => ?_, fun t a => ?_⟩ <;>
    cases t <;> simp [mkActionCard, mkModifierCard]

end Flip7
